import Mathlib

/-!
Shallow embedding of the PyRoomStudio mesh-geometry core
(`render3.py`, `render2.py`, `render.py`, `acoustic.py`).

Vertex coordinates are modelled as rationals (exact idealization of the
float arithmetic in the source).  The only transcendental operation in the
source — the `arccos` dihedral-angle test in `compute_feature_edges` — is
modelled over the reals inside a `Prop`, so everything else stays
executable.
-/

/-- A vertex: 3 coordinates, compared by exact value (Python tuples of floats). -/
abbrev Vec3 : Type := ℚ × ℚ × ℚ

/-- A triangle: ordered triple of vertices (`model.vectors[i]`). -/
abbrev Tri : Type := Vec3 × Vec3 × Vec3

/-- An edge: (canonicalized) pair of vertices. -/
abbrev Edge : Type := Vec3 × Vec3

def vadd (a b : Vec3) : Vec3 := (a.1 + b.1, a.2.1 + b.2.1, a.2.2 + b.2.2)

def vsub (a b : Vec3) : Vec3 := (a.1 - b.1, a.2.1 - b.2.1, a.2.2 - b.2.2)

def vsmul (c : ℚ) (a : Vec3) : Vec3 := (c * a.1, c * a.2.1, c * a.2.2)

def vdiv (a : Vec3) (c : ℚ) : Vec3 := (a.1 / c, a.2.1 / c, a.2.2 / c)

/-- `np.dot` on 3-vectors. -/
def dot (a b : Vec3) : ℚ := a.1 * b.1 + a.2.1 * b.2.1 + a.2.2 * b.2.2

/-- `np.cross` on 3-vectors. -/
def cross (a b : Vec3) : Vec3 :=
  (a.2.1 * b.2.2 - a.2.2 * b.2.1,
   a.2.2 * b.1 - a.1 * b.2.2,
   a.1 * b.2.1 - a.2.1 * b.1)

/-- Python's lexicographic `<` on coordinate tuples. -/
def vecLt (a b : Vec3) : Bool :=
  if a.1 < b.1 then true
  else if b.1 < a.1 then false
  else if a.2.1 < b.2.1 then true
  else if b.2.1 < a.2.1 then false
  else decide (a.2.2 < b.2.2)

/-- `tuple(sorted([v1, v2]))`: canonicalize an edge by sorting its endpoints. -/
def canonEdge (v1 v2 : Vec3) : Edge :=
  if vecLt v2 v1 then (v2, v1) else (v1, v2)

/-- The three canonicalized edges of a triangle, in the order the
`for i in range(3)` loop visits them (`(v0,v1), (v1,v2), (v2,v0)`). -/
def triEdges (t : Tri) : List Edge :=
  [canonEdge t.1 t.2.1, canonEdge t.2.1 t.2.2, canonEdge t.2.2 t.1]

/-- The entry of the `edge_to_triangles` dict for key `e`: every triangle
index is appended once per occurrence of `e` among its three canonicalized
edges, in enumeration order.  An absent key is the empty list. -/
def edgeOccurrences (tris : List Tri) (e : Edge) : List ℕ :=
  (List.range tris.length).flatMap fun t =>
    ((triEdges (tris.getD t default)).filter fun e2 => decide (e2 = e)).map fun _ => t

/-- Squared euclidean norm (so that `np.linalg.norm v = Real.sqrt (normSq v)`). -/
def normSq (v : Vec3) : ℚ := v.1 ^ 2 + v.2.1 ^ 2 + v.2.2 ^ 2

/-- The dihedral test of `compute_feature_edges`:
`np.arccos(np.clip(np.dot(n1,n2)/(norm n1 * norm n2), -1, 1)) > np.radians(threshold)`. -/
def sharp_angle (n1 n2 : Vec3) (angle_threshold_degrees : ℚ) : Prop :=
  Real.arccos (max (-1)
      (min ((dot n1 n2 : ℚ) / (Real.sqrt (normSq n1) * Real.sqrt (normSq n2))) 1)) >
    (angle_threshold_degrees : ℝ) * Real.pi / 180

/-- `Render3.compute_feature_edges`: an edge is in the returned set iff its
adjacency list has length 1 (mesh boundary), or length 2 and the dihedral
angle between the two adjacent triangles' normals strictly exceeds the
threshold.  Edges with any other adjacency count are never added. -/
def compute_feature_edges (tris : List Tri) (normals : List Vec3)
    (angle_threshold_degrees : ℚ) : Set Edge :=
  {e | (edgeOccurrences tris e).length = 1 ∨
       ((edgeOccurrences tris e).length = 2 ∧
        sharp_angle (normals.getD ((edgeOccurrences tris e).getD 0 0) default)
          (normals.getD ((edgeOccurrences tris e).getD 1 0) default)
          angle_threshold_degrees)}

/-- `np.dot(v0, np.cross(v1, v2)) / 6.0` — signed tetrahedron volume. -/
def tetra_volume (t : Tri) : ℚ := dot t.1 (cross t.2.1 t.2.2) / 6

/-- `(v0 + v1 + v2) / 4.0` — tetrahedron centroid used by the source. -/
def tetra_centroid (t : Tri) : Vec3 := vdiv (vadd (vadd t.1 t.2.1) t.2.2) 4

/-- The accumulation loop of `Render.compute_volumetric_properties`:
`centroid_sum += tetra_centroid * tetra_volume; total_volume += tetra_volume`. -/
def volumetric_fold (tris : List Tri) : Vec3 × ℚ :=
  tris.foldl
    (fun acc t =>
      (vadd acc.1 (vsmul (tetra_volume t) (tetra_centroid t)), acc.2 + tetra_volume t))
    ((0, 0, 0), 0)

/-- `np.isclose(x, 0)` with numpy defaults: `|x - 0| ≤ atol + rtol*|0| = 1e-8`. -/
def iscloseZero (x : ℚ) : Prop := |x| ≤ 1 / 100000000

instance : DecidablePred iscloseZero := fun x => by unfold iscloseZero; infer_instance

/-- `Render.compute_volumetric_properties` (render2.py): raises `ValueError`
when the accumulated volume is close to zero, otherwise returns
`(centroid_sum / total_volume, total_volume)`. -/
def compute_volumetric_properties (tris : List Tri) : Except String (Vec3 × ℚ) :=
  let r := volumetric_fold tris
  if iscloseZero r.2 then
    .error "Calculated volume is zero; ensure the STL mesh is closed and valid."
  else
    .ok (vdiv r.1 r.2, r.2)

/-- Specification-level sum `Σ tetra_volume` over the triangles. -/
def totalVolume : List Tri → ℚ
  | [] => 0
  | t :: ts => tetra_volume t + totalVolume ts

/-- Specification-level sum `Σ tetra_centroid · tetra_volume`. -/
def centroidSum : List Tri → Vec3
  | [] => (0, 0, 0)
  | t :: ts => vadd (vsmul (tetra_volume t) (tetra_centroid t)) (centroidSum ts)

/-- Surface registry state of `Render3`: parallel per-surface lists.
`surface_materials` entries model the Python `None`/`True` sentinel pair as
`Option Unit` (`some () = True`). -/
structure Render3State where
  surfaces : List (List ℕ)
  surface_colors : List (List ℚ)
  surface_materials : List (Option Unit)

/-- `self.default_surface_color = [0.6, 0.8, 1.0]`. -/
def default_surface_color : List ℚ := [0.6, 0.8, 1.0]

/-- The `K_r` reset branch of `Render3.check_keybinds`: one fresh default
color copy and one `None` material per surface. -/
def reset_surfaces (st : Render3State) : Render3State :=
  { st with
    surface_colors := st.surfaces.map fun _ => default_surface_color,
    surface_materials := st.surfaces.map fun _ => none }

/-- Left-click branch of `Render3.check_keybinds` after a hit:
`self.surface_materials[surf_idx] = True`. -/
def apply_texture (st : Render3State) (surf_idx : ℕ) : Render3State :=
  { st with surface_materials := st.surface_materials.set surf_idx (some ()) }

/-- Right-click branch of `Render3.check_keybinds` after a hit:
`self.surface_colors[surf_idx] = new_color; self.surface_materials[surf_idx] = None`
(the random color is passed in as a parameter). -/
def change_color (st : Render3State) (surf_idx : ℕ) (new_color : List ℚ) : Render3State :=
  { st with
    surface_colors := st.surface_colors.set surf_idx new_color,
    surface_materials := st.surface_materials.set surf_idx none }

/-- `self.surface_materials[i]` (queried at a valid index). -/
def materialOf (st : Render3State) (i : ℕ) : Option Unit := st.surface_materials.getD i none

/-- `self.surface_colors[i]` (queried at a valid index). -/
def colorOf (st : Render3State) (i : ℕ) : List ℚ := st.surface_colors.getD i []

/-- The inner `while queue:` loop of `Render3.group_triangles_into_surfaces`.
The Python list used as a stack is represented reversed, so `queue.pop()` is
`head` and `queue.append(x)` conses.  Popping an already-visited triangle is
skipped; otherwise the triangle is marked visited, added to the current
surface, and the unvisited triangles sharing one of its three non-feature
edges are pushed.  Out-of-range indices (which cannot occur on real inputs)
read as visited via `getD _ true`. -/
def bfsAux (tris : List Tri) (fe : Edge → Bool) :
    List Bool → List ℕ → List ℕ → List Bool × List ℕ
  | visited, surface, [] => (visited, surface)
  | visited, surface, t :: queue =>
    if visited.getD t true then bfsAux tris fe visited surface queue
    else
      bfsAux tris fe (visited.set t true) (surface ++ [t])
        (((triEdges (tris.getD t default)).flatMap fun e =>
            if fe e then []
            else (edgeOccurrences tris e).filter fun nb =>
              !((visited.set t true).getD nb true)).reverse ++ queue)
termination_by visited _ queue => (visited.count false, queue.length)
decreasing_by
  · apply Prod.Lex.right
    simp
  · apply Prod.Lex.left
    rename_i hvis
    simp only [Bool.not_eq_true] at hvis
    induction visited generalizing t with
    | nil => simp at hvis
    | cons b bs ih =>
      cases t with
      | zero =>
        simp only [List.getD_cons_zero] at hvis
        subst hvis
        simp [List.count_cons]
      | succ n =>
        simp only [List.getD_cons_succ] at hvis
        simp only [List.set_cons_succ, List.count_cons]
        exact Nat.add_lt_add_right (ih n hvis) _

/-- Outer loop of `Render3.group_triangles_into_surfaces`: scan the triangle
indices in order and start a flood fill at each not-yet-visited one. -/
def groupAux (tris : List Tri) (fe : Edge → Bool) :
    List ℕ → List Bool → List (List ℕ) → List (List ℕ)
  | [], _, surfaces => surfaces
  | i :: rest, visited, surfaces =>
    if visited.getD i true then groupAux tris fe rest visited surfaces
    else
      let r := bfsAux tris fe visited [] [i]
      groupAux tris fe rest r.1 (surfaces ++ [r.2])

/-- `Render3.group_triangles_into_surfaces`, parametric in the feature-edge
set (the source reads `self.feature_edges`; membership testing is Boolean). -/
def group_triangles_into_surfaces (tris : List Tri) (fe : Edge → Bool) : List (List ℕ) :=
  groupAux tris fe (List.range tris.length) (List.replicate tris.length false) []

/-- `Render3.ray_triangle_intersect` — Möller–Trumbore with `eps = 1e-8`:
`None` when the ray is parallel (`-eps < a < eps`), a barycentric coordinate
is out of range, or `t ≤ eps`; otherwise `Some t`. -/
def ray_triangle_intersect (ray_origin ray_dir : Vec3) (triangle : Tri) : Option ℚ :=
  let v0 := triangle.1
  let v1 := triangle.2.1
  let v2 := triangle.2.2
  let eps : ℚ := 1 / 100000000
  let edge1 := vsub v1 v0
  let edge2 := vsub v2 v0
  let h := cross ray_dir edge2
  let a := dot edge1 h
  if -eps < a ∧ a < eps then none
  else
    let f := 1 / a
    let s := vsub ray_origin v0
    let u := f * dot s h
    if u < 0 ∨ u > 1 then none
    else
      let q := cross s edge1
      let v := f * dot ray_dir q
      if v < 0 ∨ u + v > 1 then none
      else
        let t := f * dot edge2 q
        if t > eps then some t else none

/-- `t < min_t` where `min_t` starts at `float('inf')` (modelled as `none`). -/
def lt_min_t (t : ℚ) : Option ℚ → Bool
  | none => true
  | some m => decide (t < m)

/-- The picking loop of `Render3.check_keybinds`: scan all triangles,
keeping the smallest intersection parameter seen so far and its index. -/
def pickAux (ray_origin ray_dir : Vec3) :
    List Tri → ℕ → Option ℚ → Option ℕ → Option ℕ
  | [], _, _, hit_tri => hit_tri
  | triangle :: rest, idx, min_t, hit_tri =>
    match ray_triangle_intersect ray_origin ray_dir triangle with
    | none => pickAux ray_origin ray_dir rest (idx + 1) min_t hit_tri
    | some t =>
      if lt_min_t t min_t then pickAux ray_origin ray_dir rest (idx + 1) (some t) (some idx)
      else pickAux ray_origin ray_dir rest (idx + 1) min_t hit_tri

/-- Nearest-hit triangle pick over the whole mesh (`min_t = inf`, `hit_tri = None`). -/
def pickTriangle (ray_origin ray_dir : Vec3) (tris : List Tri) : Option ℕ :=
  pickAux ray_origin ray_dir tris 0 none none

/-- One entry of the list returned by `Render.get_walls_for_acoustic`:
the dict `{'triangles': list(surface)}`. -/
structure WallInfo where
  triangles : List ℕ
deriving DecidableEq

/-- `Render.get_walls_for_acoustic`: one `WallInfo` per surface. -/
def get_walls_for_acoustic (surfaces : List (List ℕ)) : List WallInfo :=
  surfaces.map fun s => ⟨s⟩

/-- `Render.get_model_vertices`: `model.vectors.reshape(-1, 3)` — the
triangle array flattened to one vertex row per triangle corner. -/
def get_model_vertices (tris : List Tri) : List Vec3 :=
  tris.flatMap fun t => [t.1, t.2.1, t.2.2]

/-- `model_vertices[tri_idx*3 : tri_idx*3+3]`. -/
def sliceVerts (model_vertices : List Vec3) (tri_idx : ℕ) : List Vec3 :=
  (model_vertices.drop (tri_idx * 3)).take 3

/-- The wall-construction loop of `Acoustic.simulate`: for every triangle
index listed in every wall dict, slice its 3 vertex rows; slices with fewer
than 3 rows are skipped with a warning, the rest are scaled and become one
acoustic wall each (`pra.wall_factory` transposition is a layout detail). -/
def wallOfTriangle (model_vertices : List Vec3) (scale_factor : ℚ)
    (tri_idx : ℕ) : Option (List Vec3) :=
  let triangle_verts := sliceVerts model_vertices tri_idx
  if triangle_verts.length < 3 then none
  else some (triangle_verts.map (vsmul scale_factor))

def buildWalls (walls_from_render : List WallInfo) (model_vertices : List Vec3)
    (scale_factor : ℚ) : List (List Vec3) :=
  walls_from_render.flatMap fun wall_info =>
    wall_info.triangles.filterMap (wallOfTriangle model_vertices scale_factor)

/-- The geometry-validation portion of `Acoustic.simulate` (its sound-file
existence check is file-system territory and out of scope): empty wall list
and empty vertex array raise `ValueError` up front, and a wall-construction
pass that produces zero valid walls raises `ValueError` afterwards. -/
def simulate_validate (walls_from_render : List WallInfo) (model_vertices : List Vec3)
    (scale_factor : ℚ) : Except String (List (List Vec3)) :=
  if walls_from_render.length = 0 then
    .error "No walls provided for acoustic simulation"
  else if model_vertices.length = 0 then
    .error "No vertices provided for acoustic simulation"
  else
    let walls := buildWalls walls_from_render model_vertices scale_factor
    if walls.length = 0 then .error "No valid walls created from the 3D model"
    else .ok walls

/-- The dihedral angle of `compute_feature_edges` equals the threshold exactly
(the boundary case of the strict `>` policy). -/
def dihedral_eq_threshold (n1 n2 : Vec3) (angle_threshold_degrees : ℚ) : Prop :=
  Real.arccos (max (-1)
      (min ((dot n1 n2 : ℚ) / (Real.sqrt (normSq n1) * Real.sqrt (normSq n2))) 1)) =
    (angle_threshold_degrees : ℝ) * Real.pi / 180

/-- An open unit square: two triangles sharing one diagonal edge. -/
def demoSquare : List Tri := [((0,0,0),(1,0,0),(0,1,0)), ((1,0,0),(1,1,0),(0,1,0))]

/-- The canonicalized diagonal edge of `demoSquare`. -/
def demoSharedEdge : Edge := ((0,1,0),(1,0,0))

/-- Three triangles all sharing the edge from the origin to `(1,0,0)` —
a non-manifold fan. -/
def demoTriple : List Tri :=
  [((0,0,0),(1,0,0),(0,1,0)), ((0,0,0),(1,0,0),(0,0,1)), ((0,0,0),(1,0,0),(0,-1,0))]

/-- A single triangle with nonzero signed tetra volume from the origin. -/
def demoTetraFace : List Tri := [((1,0,0),(0,1,0),(0,0,1))]

/-- A small concrete registry state with two surfaces. -/
def demoRegistry : Render3State :=
  { surfaces := [[0], [1]],
    surface_colors := [[1,1,1], [0,0,1]],
    surface_materials := [some (), none] }

/-- The acceptance conditions of the Möller–Trumbore test exactly as the
source checks them: `|a| ≥ eps` (not parallel), `u ∈ [0,1]`, `v ≥ 0` with
`u + v ≤ 1` (hence also `v ≤ 1`), and `t > eps`, with
`t = f * dot(edge2, q)`. -/
def mt_valid (ray_origin ray_dir : Vec3) (triangle : Tri) (t : ℚ) : Prop :=
  let v0 := triangle.1
  let v1 := triangle.2.1
  let v2 := triangle.2.2
  let eps : ℚ := 1 / 100000000
  let edge1 := vsub v1 v0
  let edge2 := vsub v2 v0
  let h := cross ray_dir edge2
  let a := dot edge1 h
  let f := 1 / a
  let s := vsub ray_origin v0
  let u := f * dot s h
  let q := cross s edge1
  let v := f * dot ray_dir q
  eps ≤ |a| ∧ 0 ≤ u ∧ u ≤ 1 ∧ 0 ≤ v ∧ u + v ≤ 1 ∧ t = f * dot edge2 q ∧ eps < t

/-- Loop invariant of the picking scan after the first `k` triangles:
either nothing hit yet (`min_t = inf`, `hit_tri = None`) and no scanned
triangle intersects, or the current best `(min_t, hit_tri)` is a scanned
valid hit with minimal `t` among scanned triangles.  The two mixed states
never occur. -/
def PickInv (ray_origin ray_dir : Vec3) (tris : List Tri) (k : ℕ) :
    Option ℚ → Option ℕ → Prop
  | none, none =>
    ∀ j, j < k → j < tris.length →
      ray_triangle_intersect ray_origin ray_dir (tris.getD j default) = none
  | some m, some i =>
    i < k ∧ i < tris.length ∧
    ray_triangle_intersect ray_origin ray_dir (tris.getD i default) = some m ∧
    ∀ j t', j < k → j < tris.length →
      ray_triangle_intersect ray_origin ray_dir (tris.getD j default) = some t' → m ≤ t'
  | none, some _ => False
  | some _, none => False

-- ===== Lemmas and theorems =====

lemma vadd3_zero (a : Vec3) : vadd a (0 : Vec3) = a := by
  simp [vadd]

lemma vadd3_assoc (a b c : Vec3) : vadd (vadd a b) c = vadd a (vadd b c) := by
  simp [vadd, add_assoc]

lemma volumetric_fold_eq (tris : List Tri) : ∀ (c0 : Vec3) (v0 : ℚ),
    tris.foldl
      (fun acc t =>
        (vadd acc.1 (vsmul (tetra_volume t) (tetra_centroid t)), acc.2 + tetra_volume t))
      (c0, v0) = (vadd c0 (centroidSum tris), v0 + totalVolume tris) := by
  induction tris with
  | nil => intro c0 v0; simp [centroidSum, totalVolume, vadd3_zero]
  | cons t ts ih =>
    intro c0 v0
    simp only [List.foldl_cons, ih, centroidSum, totalVolume, vadd3_assoc, add_assoc]

lemma volumetric_fold_spec (tris : List Tri) :
    volumetric_fold tris = (centroidSum tris, totalVolume tris) := by
  have h := volumetric_fold_eq tris (0, 0, 0) 0
  simpa [volumetric_fold, vadd, centroidSum] using h


lemma getD_set_self {α : Type} (l : List α) (i : ℕ) (x d : α) (h : i < l.length) :
    (l.set i x).getD i d = x := by
  rw [List.getD_eq_getElem _ _ (by simpa using h)]
  simp

/-- C3: the volumetric-center computation accumulates the signed tetrahedron
volumes `dot(v0, cross(v1,v2))/6` and the volume-weighted centroids
`(v0+v1+v2)/4`; it raises exactly when the total volume is approximately zero
(`np.isclose(·, 0)`), otherwise it returns the weighted centroid sum divided
by the total volume. -/
theorem claim_C3_volumetric_center (tris : List Tri) :
    ((compute_volumetric_properties tris).isOk = false ↔ iscloseZero (totalVolume tris)) ∧
    (¬ iscloseZero (totalVolume tris) →
      compute_volumetric_properties tris =
        .ok (vdiv (centroidSum tris) (totalVolume tris), totalVolume tris)) := by
  unfold compute_volumetric_properties
  rw [volumetric_fold_spec]
  by_cases h : iscloseZero (totalVolume tris)
  · simp [h, Except.isOk, Except.toBool]
  · simp [h, Except.isOk, Except.toBool]

theorem claim_C3_witness :
    ¬ iscloseZero (totalVolume demoTetraFace) ∧
    compute_volumetric_properties demoTetraFace =
      .ok (vdiv (centroidSum demoTetraFace) (totalVolume demoTetraFace),
           totalVolume demoTetraFace) :=
  ⟨by with_unfolding_all decide,
   (claim_C3_volumetric_center demoTetraFace).2 (by with_unfolding_all decide)⟩

/-- C5: changing a surface's color clears its material, while applying a
texture sets the material and leaves every surface color untouched. -/
theorem claim_C5_color_material_exclusivity (st : Render3State) (surf_idx : ℕ)
    (new_color : List ℚ) (h : surf_idx < st.surface_materials.length) :
    materialOf (change_color st surf_idx new_color) surf_idx = none ∧
    materialOf (apply_texture st surf_idx) surf_idx = some () ∧
    (apply_texture st surf_idx).surface_colors = st.surface_colors := by
  refine ⟨?_, ?_, rfl⟩
  · unfold materialOf change_color
    exact getD_set_self _ _ _ _ h
  · unfold materialOf apply_texture
    exact getD_set_self _ _ _ _ h

theorem claim_C5_witness :
    0 < demoRegistry.surface_materials.length ∧
    materialOf (change_color demoRegistry 0 [1, 0, 0]) 0 = none ∧
    materialOf (apply_texture demoRegistry 0) 0 = some () ∧
    (apply_texture demoRegistry 0).surface_colors = demoRegistry.surface_colors :=
  ⟨by decide, claim_C5_color_material_exclusivity demoRegistry 0 [1, 0, 0] (by decide)⟩

/-- C9: reset restores every surface to the default color `[0.6, 0.8, 1.0]`
with no material, and resetting twice equals resetting once. -/
theorem claim_C9_reset (st : Render3State) :
    (∀ i, i < st.surfaces.length →
      colorOf (reset_surfaces st) i = default_surface_color ∧
      materialOf (reset_surfaces st) i = none) ∧
    reset_surfaces (reset_surfaces st) = reset_surfaces st := by
  constructor
  · intro i hi
    constructor
    · unfold colorOf reset_surfaces
      rw [List.getD_eq_getElem _ _ (by simpa using hi)]
      simp
    · unfold materialOf reset_surfaces
      rw [List.getD_eq_getElem _ _ (by simpa using hi)]
      simp
  · rfl

theorem claim_C9_witness :
    (0 < demoRegistry.surfaces.length →
      colorOf (reset_surfaces demoRegistry) 0 = default_surface_color ∧
      materialOf (reset_surfaces demoRegistry) 0 = none) ∧
    reset_surfaces (reset_surfaces demoRegistry) = reset_surfaces demoRegistry :=
  ⟨fun h => (claim_C9_reset demoRegistry).1 0 h, (claim_C9_reset demoRegistry).2⟩

/-- C6: every edge whose adjacency list has exactly one triangle (a mesh
boundary edge) is a feature edge. -/
theorem claim_C6_boundary_edges (tris : List Tri) (normals : List Vec3)
    (angle_threshold_degrees : ℚ) (e : Edge)
    (h : (edgeOccurrences tris e).length = 1) :
    e ∈ compute_feature_edges tris normals angle_threshold_degrees :=
  Or.inl h

theorem claim_C6_witness :
    (edgeOccurrences demoTetraFace (canonEdge (1,0,0) (0,1,0))).length = 1 ∧
    canonEdge (1,0,0) (0,1,0) ∈ compute_feature_edges demoTetraFace [(1,1,1)] 30 :=
  ⟨by with_unfolding_all decide,
   claim_C6_boundary_edges demoTetraFace [(1,1,1)] 30 _ (by with_unfolding_all decide)⟩

/-- C7: for an edge shared by exactly two triangles, feature-ness holds iff
the dihedral angle `arccos(clip(dot(n1,n2)/(|n1||n2|), -1, 1))` strictly
exceeds the threshold; an edge whose angle equals the threshold exactly is
not a feature edge. -/
theorem claim_C7_angle_threshold (tris : List Tri) (normals : List Vec3)
    (angle_threshold_degrees : ℚ) (e : Edge)
    (h : (edgeOccurrences tris e).length = 2) :
    (e ∈ compute_feature_edges tris normals angle_threshold_degrees ↔
      sharp_angle (normals.getD ((edgeOccurrences tris e).getD 0 0) default)
        (normals.getD ((edgeOccurrences tris e).getD 1 0) default)
        angle_threshold_degrees) ∧
    (dihedral_eq_threshold (normals.getD ((edgeOccurrences tris e).getD 0 0) default)
        (normals.getD ((edgeOccurrences tris e).getD 1 0) default)
        angle_threshold_degrees →
      e ∉ compute_feature_edges tris normals angle_threshold_degrees) := by
  constructor
  · simp [compute_feature_edges, Set.mem_setOf_eq, h]
  · intro heq hmem
    have hs : sharp_angle (normals.getD ((edgeOccurrences tris e).getD 0 0) default)
        (normals.getD ((edgeOccurrences tris e).getD 1 0) default)
        angle_threshold_degrees := by
      simpa [compute_feature_edges, Set.mem_setOf_eq, h] using hmem
    unfold sharp_angle at hs
    unfold dihedral_eq_threshold at heq
    rw [heq] at hs
    exact lt_irrefl _ hs

theorem claim_C7_witness :
    (edgeOccurrences demoSquare demoSharedEdge).length = 2 ∧
    ((demoSharedEdge ∈ compute_feature_edges demoSquare [(0,0,1),(0,0,1)] 30 ↔
      sharp_angle
        (([(0,0,1),(0,0,1)] : List Vec3).getD
          ((edgeOccurrences demoSquare demoSharedEdge).getD 0 0) default)
        (([(0,0,1),(0,0,1)] : List Vec3).getD
          ((edgeOccurrences demoSquare demoSharedEdge).getD 1 0) default) 30) ∧
     (dihedral_eq_threshold
        (([(0,0,1),(0,0,1)] : List Vec3).getD
          ((edgeOccurrences demoSquare demoSharedEdge).getD 0 0) default)
        (([(0,0,1),(0,0,1)] : List Vec3).getD
          ((edgeOccurrences demoSquare demoSharedEdge).getD 1 0) default) 30 →
      demoSharedEdge ∉ compute_feature_edges demoSquare [(0,0,1),(0,0,1)] 30)) :=
  ⟨by with_unfolding_all decide,
   claim_C7_angle_threshold demoSquare [(0,0,1),(0,0,1)] 30 demoSharedEdge
     (by with_unfolding_all decide)⟩

/-- C2 as stated is false: `compute_feature_edges` has no branch for
adjacency counts above two, so a non-manifold edge shared by three
triangles is not flagged as a feature edge. -/
theorem claim_C2_counterexample :
    2 < (edgeOccurrences demoTriple (canonEdge (0,0,0) (1,0,0))).length ∧
    canonEdge (0,0,0) (1,0,0) ∉
      compute_feature_edges demoTriple [(0,0,1),(0,-1,0),(0,0,-1)] 30 := by
  constructor
  · with_unfolding_all decide
  · intro hmem
    have hlen : (edgeOccurrences demoTriple (canonEdge (0,0,0) (1,0,0))).length = 3 := by
      with_unfolding_all decide
    rcases hmem with h1 | h2
    · rw [hlen] at h1; exact absurd h1 (by decide)
    · rw [hlen] at h2; exact absurd h2.1 (by decide)

/-- C2 amended: an edge whose adjacency list has more than two triangles is
never included in the feature-edge set (only counts 1 and 2 produce feature
edges). -/
theorem claim_C2_amended_nonmanifold (tris : List Tri) (normals : List Vec3)
    (angle_threshold_degrees : ℚ) (e : Edge)
    (h : 2 < (edgeOccurrences tris e).length) :
    e ∉ compute_feature_edges tris normals angle_threshold_degrees := by
  intro hmem
  rcases hmem with h1 | h2
  · omega
  · omega

theorem claim_C2_witness :
    2 < (edgeOccurrences demoTriple (canonEdge (0,0,0) (1,0,0))).length ∧
    canonEdge (0,0,0) (1,0,0) ∉
      compute_feature_edges demoTriple [(0,0,1),(0,-1,0),(0,0,-1)] 45 :=
  ⟨by with_unfolding_all decide,
   claim_C2_amended_nonmanifold demoTriple [(0,0,1),(0,-1,0),(0,0,-1)] 45 _
     (by with_unfolding_all decide)⟩

lemma buildWalls_nil_verts (walls_from_render : List WallInfo) (scale_factor : ℚ) :
    buildWalls walls_from_render [] scale_factor = [] := by
  unfold buildWalls
  rw [List.flatMap_eq_nil_iff]
  intro w _
  rw [List.filterMap_eq_nil_iff]
  intro i _
  simp [wallOfTriangle, sliceVerts]

/-- C8: the wall-export validation fails exactly when the supplied wall list
is empty or zero valid wall triangles are produced from it; with at least
one valid wall triangle it succeeds with the built walls. -/
theorem claim_C8_wall_export (walls_from_render : List WallInfo)
    (model_vertices : List Vec3) (scale_factor : ℚ) :
    ((simulate_validate walls_from_render model_vertices scale_factor).isOk = false ↔
      (walls_from_render = [] ∨
       buildWalls walls_from_render model_vertices scale_factor = [])) ∧
    (walls_from_render ≠ [] →
      buildWalls walls_from_render model_vertices scale_factor ≠ [] →
      simulate_validate walls_from_render model_vertices scale_factor =
        .ok (buildWalls walls_from_render model_vertices scale_factor)) := by
  unfold simulate_validate
  by_cases hw : walls_from_render = []
  · subst hw
    simp [Except.isOk, Except.toBool]
  · have hw' : walls_from_render.length ≠ 0 := by
      simpa [List.length_eq_zero] using hw
    by_cases hv : model_vertices = []
    · subst hv
      simp [hw', Except.isOk, Except.toBool, buildWalls_nil_verts, hw]
    · have hv' : model_vertices.length ≠ 0 := by
        simpa [List.length_eq_zero] using hv
      by_cases hb : buildWalls walls_from_render model_vertices scale_factor = []
      · simp [hw', hv', hb, Except.isOk, Except.toBool, hw]
      · have hb' : (buildWalls walls_from_render model_vertices scale_factor).length ≠ 0 := by
          simpa [List.length_eq_zero] using hb
        simp [hw', hv', hb', Except.isOk, Except.toBool, hw, hb]

theorem claim_C8_witness :
    ([⟨[0]⟩] : List WallInfo) ≠ [] ∧
    buildWalls [⟨[0]⟩] (get_model_vertices demoTetraFace) 1 ≠ [] ∧
    simulate_validate [⟨[0]⟩] (get_model_vertices demoTetraFace) 1 =
      .ok (buildWalls [⟨[0]⟩] (get_model_vertices demoTetraFace) 1) :=
  ⟨List.cons_ne_nil _ _, by with_unfolding_all decide,
   (claim_C8_wall_export [⟨[0]⟩] (get_model_vertices demoTetraFace) 1).2
     (List.cons_ne_nil _ _) (by with_unfolding_all decide)⟩

lemma getD_false_lt (l : List Bool) (t : ℕ) (h : l.getD t true = false) : t < l.length := by
  by_contra hge
  rw [List.getD_eq_default _ _ (by omega)] at h
  cases h

lemma getD_set_ne {α : Type} (l : List α) (t i : ℕ) (x d : α) (h : i ≠ t) :
    (l.set t x).getD i d = l.getD i d := by
  rw [List.getD_eq_getElem?_getD, List.getD_eq_getElem?_getD, List.getElem?_set_ne (Ne.symm h)]

/-- Invariants of the flood-fill inner loop: the visited array keeps its
length and grows monotonically, every queued index ends up visited, and the
surface gains exactly the newly visited indices. -/
lemma bfsAux_spec (tris : List Tri) (fe : Edge → Bool) (visited : List Bool)
    (surface queue : List ℕ) :
    (bfsAux tris fe visited surface queue).1.length = visited.length ∧
    (∀ i, visited.getD i true = true →
      (bfsAux tris fe visited surface queue).1.getD i true = true) ∧
    (∀ u, u ∈ queue → (bfsAux tris fe visited surface queue).1.getD u true = true) ∧
    (∀ i, i ∈ (bfsAux tris fe visited surface queue).2 ↔
      (i ∈ surface ∨
        ((bfsAux tris fe visited surface queue).1.getD i true = true ∧
         visited.getD i true = false))) := by
  induction visited, surface, queue using bfsAux.induct tris fe with
  | case1 visited surface =>
    rw [bfsAux]
    refine ⟨rfl, fun i h => h, fun u hu => absurd hu (List.not_mem_nil u), fun i => ?_⟩
    constructor
    · exact Or.inl
    · rintro (h | ⟨hv, hnv⟩)
      · exact h
      · have hv' : visited.getD i true = true := hv
        rw [hv'] at hnv
        cases hnv
  | case2 visited surface t queue hvis ih =>
    rw [bfsAux, if_pos hvis]
    obtain ⟨ihlen, ihmono, ihqueue, ihmem⟩ := ih
    refine ⟨ihlen, ihmono, ?_, ihmem⟩
    intro u hu
    rcases List.mem_cons.mp hu with rfl | hu'
    · exact ihmono u hvis
    · exact ihqueue u hu'
  | case3 visited surface t queue hvis ih =>
    rw [bfsAux, if_neg hvis]
    obtain ⟨ihlen, ihmono, ihqueue, ihmem⟩ := ih
    simp only [dite_eq_ite] at ihlen ihmono ihqueue ihmem
    have hvf : visited.getD t true = false := by
      cases hb : visited.getD t true
      · rfl
      · exact absurd hb hvis
    have ht : t < visited.length := getD_false_lt visited t hvf
    have hlen1 : (visited.set t true).length = visited.length := List.length_set _ _ _
    have hv1t : (visited.set t true).getD t true = true := getD_set_self _ _ _ _ ht
    have hv1ne : ∀ i, i ≠ t →
        (visited.set t true).getD i true = visited.getD i true := by
      intro i hi
      exact getD_set_ne _ _ _ _ _ hi
    refine ⟨by rw [ihlen, hlen1], ?_, ?_, ?_⟩
    · intro i hi
      apply ihmono
      by_cases hit : i = t
      · subst hit; exact hv1t
      · rw [hv1ne i hit]; exact hi
    · intro u hu
      rcases List.mem_cons.mp hu with rfl | hu'
      · exact ihmono u hv1t
      · exact ihqueue u (List.mem_append_right _ hu')
    · intro i
      rw [ihmem i]
      constructor
      · rintro (hs | ⟨hr, hnv1⟩)
        · rcases List.mem_append.mp hs with hs' | hs'
          · exact Or.inl hs'
          · have hit : i = t := by simpa using hs'
            subst hit
            exact Or.inr ⟨ihmono i hv1t, hvf⟩
        · have hit : i ≠ t := by
            intro h
            subst h
            rw [hv1t] at hnv1
            cases hnv1
          refine Or.inr ⟨hr, ?_⟩
          rw [← hv1ne i hit]
          exact hnv1
      · rintro (hs | ⟨hr, hnv⟩)
        · exact Or.inl (List.mem_append_left _ hs)
        · by_cases hit : i = t
          · subst hit
            exact Or.inl (List.mem_append_right _ (by simp))
          · refine Or.inr ⟨hr, ?_⟩
            rw [hv1ne i hit]
            exact hnv

/-- Invariant of the outer segmentation loop: given that every index below
the visited-array length is either still pending or already visited, that
visited indices are exactly those in some accumulated surface, that all
accumulated indices are in range, and that accumulated surfaces are pairwise
disjoint, the final surface list covers exactly the indices below the
visited-array length and stays pairwise disjoint. -/
lemma groupAux_spec (tris : List Tri) (fe : Edge → Bool) :
    ∀ (l : List ℕ) (visited : List Bool) (surfaces : List (List ℕ)),
      (∀ i, i < visited.length → (i ∈ l ∨ visited.getD i true = true)) →
      (∀ i, i < visited.length →
        (visited.getD i true = true ↔ ∃ s ∈ surfaces, i ∈ s)) →
      (∀ s ∈ surfaces, ∀ i ∈ s, i < visited.length) →
      surfaces.Pairwise (fun s1 s2 => ∀ x ∈ s1, x ∉ s2) →
      ((∀ i, (∃ s ∈ groupAux tris fe l visited surfaces, i ∈ s) ↔ i < visited.length) ∧
        (groupAux tris fe l visited surfaces).Pairwise (fun s1 s2 => ∀ x ∈ s1, x ∉ s2)) := by
  intro l
  induction l with
  | nil =>
    intro visited surfaces hcov hvs hbound hdisj
    rw [groupAux]
    refine ⟨fun i => ⟨?_, ?_⟩, hdisj⟩
    · rintro ⟨s, hs, hi⟩
      exact hbound s hs i hi
    · intro hi
      rcases hcov i hi with hmem | hvis
      · exact absurd hmem (List.not_mem_nil i)
      · exact (hvs i hi).mp hvis
  | cons a rest ih =>
    intro visited surfaces hcov hvs hbound hdisj
    rw [groupAux]
    by_cases ha : visited.getD a true = true
    · rw [if_pos ha]
      apply ih visited surfaces ?_ hvs hbound hdisj
      intro i hi
      rcases hcov i hi with hmem | hvis
      · rcases List.mem_cons.mp hmem with rfl | hmem'
        · exact Or.inr ha
        · exact Or.inl hmem'
      · exact Or.inr hvis
    · rw [if_neg ha]
      obtain ⟨rlen, rmono, rqueue, rmem⟩ := bfsAux_spec tris fe visited [] [a]
      have hra : (bfsAux tris fe visited [] [a]).1.getD a true = true :=
        rqueue a (by simp)
      have hrmem : ∀ i, i ∈ (bfsAux tris fe visited [] [a]).2 ↔
          ((bfsAux tris fe visited [] [a]).1.getD i true = true ∧
           visited.getD i true = false) := by
        intro i
        rw [rmem i]
        simp
      have hnewlt : ∀ i, i ∈ (bfsAux tris fe visited [] [a]).2 → i < visited.length := by
        intro i hi
        exact getD_false_lt visited i ((hrmem i).mp hi).2
      have hinvs : ∀ i, i < (bfsAux tris fe visited [] [a]).1.length →
          ((bfsAux tris fe visited [] [a]).1.getD i true = true ↔
            ∃ s ∈ surfaces ++ [(bfsAux tris fe visited [] [a]).2], i ∈ s) := by
        intro i hi
        rw [rlen] at hi
        constructor
        · intro hr
          cases hv : visited.getD i true with
          | true =>
            obtain ⟨s, hs, his⟩ := (hvs i hi).mp hv
            exact ⟨s, List.mem_append_left _ hs, his⟩
          | false =>
            exact ⟨_, List.mem_append_right _ (by simp),
              (hrmem i).mpr ⟨hr, hv⟩⟩
        · rintro ⟨s, hs, his⟩
          rcases List.mem_append.mp hs with hs' | hs'
          · exact rmono i ((hvs i hi).mpr ⟨s, hs', his⟩)
          · have : s = (bfsAux tris fe visited [] [a]).2 := by simpa using hs'
            subst this
            exact ((hrmem i).mp his).1
      have hinbound : ∀ s ∈ surfaces ++ [(bfsAux tris fe visited [] [a]).2],
          ∀ i ∈ s, i < (bfsAux tris fe visited [] [a]).1.length := by
        intro s hs i his
        rw [rlen]
        rcases List.mem_append.mp hs with hs' | hs'
        · exact hbound s hs' i his
        · have : s = (bfsAux tris fe visited [] [a]).2 := by simpa using hs'
          subst this
          exact hnewlt i his
      have hindisj : (surfaces ++ [(bfsAux tris fe visited [] [a]).2]).Pairwise
          (fun s1 s2 => ∀ x ∈ s1, x ∉ s2) := by
        rw [List.pairwise_append]
        refine ⟨hdisj, by simp, ?_⟩
        intro s hs s' hs' x hxs hxs'
        have hs'' : s' = (bfsAux tris fe visited [] [a]).2 := by simpa using hs'
        subst hs''
        have hxvis : visited.getD x true = true :=
          (hvs x (hbound s hs x hxs)).mpr ⟨s, hs, hxs⟩
        have hxnvis : visited.getD x true = false := ((hrmem x).mp hxs').2
        rw [hxvis] at hxnvis
        cases hxnvis
      have hincov : ∀ i, i < (bfsAux tris fe visited [] [a]).1.length →
          (i ∈ rest ∨ (bfsAux tris fe visited [] [a]).1.getD i true = true) := by
        intro i hi
        rw [rlen] at hi
        rcases hcov i hi with hmem | hvis
        · rcases List.mem_cons.mp hmem with rfl | hmem'
          · exact Or.inr hra
          · exact Or.inl hmem'
        · exact Or.inr (rmono i hvis)
      have hmain := ih (bfsAux tris fe visited [] [a]).1
        (surfaces ++ [(bfsAux tris fe visited [] [a]).2]) hincov hinvs hinbound hindisj
      rw [rlen] at hmain
      exact hmain

/-- The partition property of `group_triangles_into_surfaces`, shared by the
segmentation and wall-export theorems. -/
lemma group_partition (tris : List Tri) (fe : Edge → Bool) :
    (∀ i, (∃ s ∈ group_triangles_into_surfaces tris fe, i ∈ s) ↔ i < tris.length) ∧
    (group_triangles_into_surfaces tris fe).Pairwise (fun s1 s2 => ∀ x ∈ s1, x ∉ s2) := by
  have hrep : ∀ i, i < tris.length → (List.replicate tris.length false).getD i true = false := by
    intro i hi
    rw [List.getD_eq_getElem _ _ (by simpa using hi)]
    simp
  have h := groupAux_spec tris fe (List.range tris.length)
    (List.replicate tris.length false) []
    (fun i hi => Or.inl (List.mem_range.mpr (by simpa using hi)))
    (fun i hi => by
      rw [hrep i (by simpa using hi)]
      simp)
    (fun s hs => absurd hs (List.not_mem_nil s))
    List.Pairwise.nil
  rw [List.length_replicate] at h
  exact h

/-- C1: for every mesh and every feature-edge set, the segmentation assigns
every triangle index to exactly one surface — the union of the returned
surfaces is `{0..N-1}` and distinct surfaces are disjoint. -/
theorem claim_C1_partition (tris : List Tri) (fe : Edge → Bool) :
    (∀ i, (∃ s ∈ group_triangles_into_surfaces tris fe, i ∈ s) ↔ i < tris.length) ∧
    (group_triangles_into_surfaces tris fe).Pairwise (fun s1 s2 => ∀ x ∈ s1, x ∉ s2) :=
  group_partition tris fe

lemma get_model_vertices_length (tris : List Tri) :
    (get_model_vertices tris).length = 3 * tris.length := by
  induction tris with
  | nil => rfl
  | cons t ts ih =>
    simp only [get_model_vertices, List.flatMap_cons, List.length_append] at ih ⊢
    simp [ih]
    omega

lemma sliceVerts_length (model_vertices : List Vec3) (i : ℕ)
    (h : i * 3 + 3 ≤ model_vertices.length) :
    (sliceVerts model_vertices i).length = 3 := by
  simp only [sliceVerts, List.length_take, List.length_drop]
  omega

lemma filterMap_wallOf_length (model_vertices : List Vec3) (scale_factor : ℚ)
    (ts : List ℕ) (h : ∀ i ∈ ts, ¬ (sliceVerts model_vertices i).length < 3) :
    (ts.filterMap (wallOfTriangle model_vertices scale_factor)).length = ts.length := by
  induction ts with
  | nil => rfl
  | cons a rest ih =>
    rw [List.filterMap_cons]
    have ha : wallOfTriangle model_vertices scale_factor a =
        some ((sliceVerts model_vertices a).map (vsmul scale_factor)) := by
      unfold wallOfTriangle
      rw [if_neg (h a (by simp))]
    rw [ha]
    simp only [List.length_cons]
    rw [ih (fun i hi => h i (by simp [hi]))]

lemma buildWalls_length (walls_from_render : List WallInfo) (model_vertices : List Vec3)
    (scale_factor : ℚ)
    (h : ∀ w ∈ walls_from_render, ∀ i ∈ w.triangles,
      ¬ (sliceVerts model_vertices i).length < 3) :
    (buildWalls walls_from_render model_vertices scale_factor).length =
      (walls_from_render.map fun w => w.triangles.length).sum := by
  induction walls_from_render with
  | nil => rfl
  | cons w rest ih =>
    have ih' := ih (fun w' hw' => h w' (by simp [hw']))
    simp only [buildWalls, List.flatMap_cons, List.length_append] at ih' ⊢
    rw [filterMap_wallOf_length model_vertices scale_factor w.triangles (h w (by simp)), ih']
    simp

/-- C10: walls and vertex array coming from the same renderer are coherent —
every listed triangle index is in range, its vertex slice has exactly 3 rows,
and the skip branch never fires: every listed triangle yields a wall. -/
theorem claim_C10_wall_indices (tris : List Tri) (fe : Edge → Bool) (scale_factor : ℚ) :
    (∀ w ∈ get_walls_for_acoustic (group_triangles_into_surfaces tris fe),
      ∀ tri_idx ∈ w.triangles,
        tri_idx < tris.length ∧
        (sliceVerts (get_model_vertices tris) tri_idx).length = 3) ∧
    (buildWalls (get_walls_for_acoustic (group_triangles_into_surfaces tris fe))
        (get_model_vertices tris) scale_factor).length =
      ((get_walls_for_acoustic (group_triangles_into_surfaces tris fe)).map
        (fun w => w.triangles.length)).sum := by
  have hidx : ∀ w ∈ get_walls_for_acoustic (group_triangles_into_surfaces tris fe),
      ∀ i ∈ w.triangles, i < tris.length := by
    intro w hw i hi
    obtain ⟨s, hs, rfl⟩ := List.mem_map.mp hw
    exact ((group_partition tris fe).1 i).mp ⟨s, hs, hi⟩
  have hslice : ∀ w ∈ get_walls_for_acoustic (group_triangles_into_surfaces tris fe),
      ∀ i ∈ w.triangles, (sliceVerts (get_model_vertices tris) i).length = 3 := by
    intro w hw i hi
    apply sliceVerts_length
    rw [get_model_vertices_length]
    have := hidx w hw i hi
    omega
  refine ⟨fun w hw i hi => ⟨hidx w hw i hi, hslice w hw i hi⟩, ?_⟩
  apply buildWalls_length
  intro w hw i hi
  rw [hslice w hw i hi]
  omega

theorem claim_C10_witness :
    (⟨[0, 1]⟩ : WallInfo) ∈
      get_walls_for_acoustic (group_triangles_into_surfaces demoSquare (fun _ => false)) ∧
    0 ∈ (⟨[0, 1]⟩ : WallInfo).triangles ∧
    (0 < demoSquare.length ∧
      (sliceVerts (get_model_vertices demoSquare) 0).length = 3) ∧
    (buildWalls (get_walls_for_acoustic (group_triangles_into_surfaces demoSquare
        (fun _ => false))) (get_model_vertices demoSquare) 1).length =
      ((get_walls_for_acoustic (group_triangles_into_surfaces demoSquare
        (fun _ => false))).map (fun w => w.triangles.length)).sum :=
  ⟨by with_unfolding_all decide, by decide,
   (claim_C10_wall_indices demoSquare (fun _ => false) 1).1 ⟨[0, 1]⟩
     (by with_unfolding_all decide) 0 (by decide),
   (claim_C10_wall_indices demoSquare (fun _ => false) 1).2⟩

lemma pickAux_spec (ray_origin ray_dir : Vec3) (tris : List Tri) :
    ∀ (l : List Tri) (k : ℕ) (min_t : Option ℚ) (hit_tri : Option ℕ),
      tris.drop k = l →
      PickInv ray_origin ray_dir tris k min_t hit_tri →
      ((pickAux ray_origin ray_dir l k min_t hit_tri = none →
        ∀ j, j < tris.length →
          ray_triangle_intersect ray_origin ray_dir (tris.getD j default) = none) ∧
       (∀ i, pickAux ray_origin ray_dir l k min_t hit_tri = some i →
        i < tris.length ∧
        ∃ t, ray_triangle_intersect ray_origin ray_dir (tris.getD i default) = some t ∧
          ∀ j t', j < tris.length →
            ray_triangle_intersect ray_origin ray_dir (tris.getD j default) = some t' →
              t ≤ t')) := by
  intro l
  induction l with
  | nil =>
    intro k min_t hit_tri hdrop hinv
    have hk : tris.length ≤ k := by
      by_contra hlt
      push_neg at hlt
      have hcons := List.drop_eq_getElem_cons hlt
      rw [hdrop] at hcons
      cases hcons
    rw [pickAux]
    match min_t, hit_tri, hinv with
    | none, none, hinv =>
      refine ⟨fun _ j hj => hinv j (by omega) hj, fun i hi => by cases hi⟩
    | some m, some i0, hinv =>
      obtain ⟨h1, h2, h3, h4⟩ := hinv
      refine ⟨fun h => ?_, fun i hi => ?_⟩
      · cases h
      · cases hi
        exact ⟨h2, m, h3, fun j t' hj hint => h4 j t' (by omega) hj hint⟩
  | cons tri rest ih =>
    intro k min_t hit_tri hdrop hinv
    have hk : k < tris.length := by
      by_contra hge
      push_neg at hge
      rw [List.drop_eq_nil_of_le hge] at hdrop
      cases hdrop
    have hcons := List.drop_eq_getElem_cons hk
    rw [hdrop] at hcons
    injection hcons with htri hrest
    have htriD : tris.getD k default = tri := by
      rw [List.getD_eq_getElem _ _ hk, ← htri]
    rw [pickAux]
    cases hint : ray_triangle_intersect ray_origin ray_dir tri with
    | none =>
      apply ih (k + 1) min_t hit_tri hrest.symm
      match min_t, hit_tri, hinv with
      | none, none, hinv =>
        intro j hj hjlen
        rcases Nat.lt_succ_iff_lt_or_eq.mp hj with hj' | rfl
        · exact hinv j hj' hjlen
        · rw [htriD]; exact hint
      | some m, some i0, hinv =>
        obtain ⟨h1, h2, h3, h4⟩ := hinv
        refine ⟨Nat.lt_succ_of_lt h1, h2, h3, fun j t' hj hjlen hi2 => ?_⟩
        rcases Nat.lt_succ_iff_lt_or_eq.mp hj with hj' | rfl
        · exact h4 j t' hj' hjlen hi2
        · rw [htriD, hint] at hi2; cases hi2
    | some t =>
      cases hlt : lt_min_t t min_t with
      | true =>
        simp only [hlt, if_true]
        apply ih (k + 1) (some t) (some k) hrest.symm
        refine ⟨Nat.lt_succ_self k, hk, by rw [htriD]; exact hint,
          fun j t' hj hjlen hi2 => ?_⟩
        rcases Nat.lt_succ_iff_lt_or_eq.mp hj with hj' | rfl
        · match min_t, hit_tri, hinv with
          | none, none, hinv =>
            rw [hinv j hj' hjlen] at hi2
            cases hi2
          | some m, some i0, hinv =>
            have hm : m ≤ t' := hinv.2.2.2 j t' hj' hjlen hi2
            have htm : t < m := by
              simp only [lt_min_t, decide_eq_true_eq] at hlt
              exact hlt
            exact le_of_lt (lt_of_lt_of_le htm hm)
        · rw [htriD, hint] at hi2
          injection hi2 with ht'
          exact le_of_eq ht'
      | false =>
        simp only [hlt, Bool.false_eq_true, if_false]
        match min_t, hit_tri, hinv with
        | none, none, hinv =>
          exact absurd hlt (by simp [lt_min_t])
        | some m, some i0, hinv =>
          apply ih (k + 1) (some m) (some i0) hrest.symm
          obtain ⟨h1, h2, h3, h4⟩ := hinv
          refine ⟨Nat.lt_succ_of_lt h1, h2, h3, fun j t' hj hjlen hi2 => ?_⟩
          rcases Nat.lt_succ_iff_lt_or_eq.mp hj with hj' | rfl
          · exact h4 j t' hj' hjlen hi2
          · rw [htriD, hint] at hi2
            injection hi2 with ht'
            have hmt : ¬ t < m := by
              simp only [lt_min_t, decide_eq_true_eq] at hlt
              simpa using hlt
            exact ht' ▸ not_lt.mp hmt

lemma ray_triangle_intersect_some_iff (ray_origin ray_dir : Vec3) (triangle : Tri) (t : ℚ) :
    ray_triangle_intersect ray_origin ray_dir triangle = some t ↔
      mt_valid ray_origin ray_dir triangle t := by
  simp only [ray_triangle_intersect, mt_valid]
  split_ifs with h1 h2 h3 h4
  · constructor
    · intro h
      exact h.elim
    · rintro ⟨ha, _⟩
      have habs := abs_lt.mpr ⟨h1.1, h1.2⟩
      linarith
  · constructor
    · intro h
      exact h.elim
    · rintro ⟨_, hu0, hu1, _⟩
      rcases h2 with h | h
      · linarith
      · linarith
  · constructor
    · intro h
      exact h.elim
    · rintro ⟨_, _, _, hv0, hv1, _⟩
      rcases h3 with h | h
      · linarith
      · linarith
  · constructor
    · intro h
      injection h with ht
      obtain ⟨hu0, hu1⟩ := not_or.mp h2
      obtain ⟨hv0, hv1⟩ := not_or.mp h3
      refine ⟨?_, not_lt.mp hu0, not_lt.mp hu1, not_lt.mp hv0, not_lt.mp hv1, ht.symm, ?_⟩
      · rw [le_abs]
        rcases not_and_or.mp h1 with h | h
        · right
          have := not_lt.mp h
          linarith
        · left
          exact not_lt.mp h
      · rw [← ht]
        exact h4
    · rintro ⟨_, _, _, _, _, hteq, _⟩
      rw [hteq]
  · constructor
    · intro h
      exact h.elim
    · rintro ⟨_, _, _, _, _, hteq, hte⟩
      rw [hteq] at hte
      exact absurd hte h4

/-- C4: the pick operation returns `none` iff no triangle has a valid
Möller–Trumbore intersection; otherwise it returns an in-range index whose
intersection parameter `t` is minimal over all valid intersections; and an
intersection is reported exactly under the validity conditions
(`|det| ≥ ε`, barycentric bounds, `t > ε`). -/
theorem claim_C4_ray_pick (ray_origin ray_dir : Vec3) (tris : List Tri) :
    (pickTriangle ray_origin ray_dir tris = none ↔
      ∀ j, j < tris.length →
        ray_triangle_intersect ray_origin ray_dir (tris.getD j default) = none) ∧
    (∀ i, pickTriangle ray_origin ray_dir tris = some i →
      i < tris.length ∧
      ∃ t, ray_triangle_intersect ray_origin ray_dir (tris.getD i default) = some t ∧
        ∀ j t', j < tris.length →
          ray_triangle_intersect ray_origin ray_dir (tris.getD j default) = some t' →
            t ≤ t') ∧
    (∀ triangle t, ray_triangle_intersect ray_origin ray_dir triangle = some t ↔
      mt_valid ray_origin ray_dir triangle t) := by
  have hspec := pickAux_spec ray_origin ray_dir tris tris 0 none none (by simp)
    (fun j hj _ => absurd hj (Nat.not_lt_zero j))
  refine ⟨⟨hspec.1, ?_⟩, hspec.2,
    fun triangle t => ray_triangle_intersect_some_iff ray_origin ray_dir triangle t⟩
  intro hall
  cases hp : pickTriangle ray_origin ray_dir tris with
  | none => rfl
  | some i =>
    obtain ⟨hlen, t, hint, _⟩ := hspec.2 i hp
    rw [hall i hlen] at hint
    cases hint

theorem claim_C4_witness :
    pickTriangle (1/4, 1/4, 1) (0, 0, -1) demoSquare = some 0 ∧
    (0 < demoSquare.length ∧
      ∃ t, ray_triangle_intersect (1/4, 1/4, 1) (0, 0, -1)
          (demoSquare.getD 0 default) = some t ∧
        ∀ j t', j < demoSquare.length →
          ray_triangle_intersect (1/4, 1/4, 1) (0, 0, -1)
            (demoSquare.getD j default) = some t' → t ≤ t') :=
  ⟨by with_unfolding_all decide,
   (claim_C4_ray_pick (1/4, 1/4, 1) (0, 0, -1) demoSquare).2.1 0
     (by with_unfolding_all decide)⟩
